import Mathlib

set_option maxHeartbeats 1000000

namespace ArtifactoryMcp

/-! Shallow embedding of the `artifactory_mcp` bridge subsystem:
`bridge.py` (value codec, invocation engine), `handles.py` (handle store),
`settings.py` (base-URL validation) and `artifactory_client.py`
(path resolver).  Python byte strings are `List Nat` with each byte
below 256; JSON values are the inductive `J`. -/

/-- JSON values as exchanged over the tool protocol. -/
inductive J where
  | null : J
  | bool (b : Bool) : J
  | num (n : Int) : J
  | str (s : String) : J
  | arr (items : List J) : J
  | obj (fields : List (String × J)) : J

/-! ## Base64 (model of Python `base64.b64encode` / `b64decode(validate=True)`)

`b64encode` packs bytes big-endian into 6-bit groups, emitting `=` padding;
`b64decode(..., validate=True)` first checks the input matches
`[A-Za-z0-9+/]*={0,2}` and then requires a length that is a multiple of 4,
decoding 4 characters to 3 bytes (padding shortens the final group). -/

/-- The base64 alphabet: index `k` (for `k < 64`) to its character. -/
def sixtetChar (k : Nat) : Char :=
  if k < 26 then Char.ofNat (65 + k)
  else if k < 52 then Char.ofNat (71 + k)
  else if k < 62 then Char.ofNat (k - 4)
  else if k = 62 then '+'
  else '/'

/-- Inverse of the base64 alphabet: character to 6-bit value, `none` when the
character is not a base64 data character. -/
def charSixtet (c : Char) : Option Nat :=
  let n := c.toNat
  if 65 ≤ n ∧ n ≤ 90 then some (n - 65)
  else if 97 ≤ n ∧ n ≤ 122 then some (n - 71)
  else if 48 ≤ n ∧ n ≤ 57 then some (n + 4)
  else if n = 43 then some 62
  else if n = 47 then some 63
  else none

/-- `base64.b64encode`, at the character-list level: 3 bytes become 4
characters; a 1- or 2-byte tail is padded with `=`. -/
def b64encodeChars : List Nat → List Char
  | [] => []
  | [a] => [sixtetChar (a / 4), sixtetChar (a % 4 * 16), '=', '=']
  | [a, b] => [sixtetChar (a / 4), sixtetChar (a % 4 * 16 + b / 16),
      sixtetChar (b % 16 * 4), '=']
  | a :: b :: c :: rest =>
      sixtetChar (a / 4) :: sixtetChar (a % 4 * 16 + b / 16) ::
      sixtetChar (b % 16 * 4 + c / 64) :: sixtetChar (c % 64) ::
      b64encodeChars rest

/-- `base64.b64encode(value).decode("ascii")`. -/
def b64encode (bs : List Nat) : String :=
  String.mk (b64encodeChars bs)

/-- `base64.b64decode(encoded, validate=True)` at the character-list level:
`none` models the raised `binascii.Error`.  Padding may appear only in the
final 4-character group (at most two `=`), and the length must be a
multiple of 4. -/
def b64decodeChars : List Char → Option (List Nat)
  | [] => some []
  | c0 :: c1 :: c2 :: c3 :: rest =>
      match charSixtet c0, charSixtet c1 with
      | some k0, some k1 =>
        if rest = [] ∧ c3 = '=' then
          if c2 = '=' then some [k0 * 4 + k1 / 16]
          else
            match charSixtet c2 with
            | some k2 => some [k0 * 4 + k1 / 16, k1 % 16 * 16 + k2 / 4]
            | none => none
        else
          match charSixtet c2, charSixtet c3 with
          | some k2, some k3 =>
            match b64decodeChars rest with
            | some tail =>
                some ((k0 * 4 + k1 / 16) :: (k1 % 16 * 16 + k2 / 4) ::
                  (k2 % 4 * 64 + k3) :: tail)
            | none => none
          | _, _ => none
      | _, _ => none
  | _ => none

/-- `base64.b64decode(encoded, validate=True)`. -/
def b64decode (s : String) : Option (List Nat) :=
  b64decodeChars s.data

/-- A Python `bytes` value: every byte is below 256. -/
def bytesOk (bs : List Nat) : Prop :=
  ∀ b ∈ bs, b < 256

/-! ## Python string helpers -/

/-- The whitespace characters stripped by Python `str.strip()`. -/
def isPySpace (c : Char) : Bool :=
  c = ' ' ∨ c = '\t' ∨ c = '\n' ∨ c = '\r' ∨ c = '\x0b' ∨ c = '\x0c'

/-- Python `str.strip()`. -/
def pyStrip (s : String) : String :=
  String.mk (((s.data.dropWhile isPySpace).reverse.dropWhile isPySpace).reverse)

/-- Python `str.rstrip("/")`. -/
def pyRstripSlash (s : String) : String :=
  String.mk ((s.data.reverse.dropWhile (fun c => c = '/')).reverse)

/-- Python `str.startswith` for a one-character prefix. -/
def startsWithChar (s : String) (c : Char) : Bool :=
  match s.data with
  | [] => false
  | c0 :: _ => c0 = c

/-- Python `str.startswith("//")` (the `urlunsplit` check). -/
def startsWithSlashSlash (s : String) : Bool :=
  match s.data with
  | c0 :: c1 :: _ => c0 = '/' ∧ c1 = '/'
  | _ => false

/-! ## In-process values (`bridge.py` codec input) -/

/-- In-process Python values as seen by the bridge: the branches of
`_serialize_value` in `bridge.py`.  An `ArtifactoryPath` is carried as its
uri, repository and path-in-repo; any other object is carried as its class
name together with its `repr` rendering. -/
inductive Value where
  | none : Value
  | bool (b : Bool) : Value
  | int (n : Int) : Value
  | str (s : String) : Value
  | bytes (bs : List Nat) : Value
  | fsPath (s : String) : Value
  | apath (uri repo pathInRepo : String) : Value
  | pyDict (fields : List (String × Value)) : Value
  | pyList (items : List Value) : Value
  | pyIter (items : List Value) : Value
  | exc (cls msg : String) : Value
  | other (cls rep : String) : Value

/-- Python `type(value).__name__`. -/
def pyTypeName : Value → String
  | .none => "NoneType"
  | .bool _ => "bool"
  | .int _ => "int"
  | .str _ => "str"
  | .bytes _ => "bytes"
  | .fsPath _ => "PosixPath"
  | .apath .. => "ArtifactoryPath"
  | .pyDict _ => "dict"
  | .pyList _ => "list"
  | .pyIter _ => "list_iterator"
  | .exc cls _ => cls
  | .other cls _ => cls

/-- Python `repr(value)`: a deterministic textual rendering.  For the
opaque objects the bridge wraps in handles, the rendering is the one the
object carries. -/
def pyRepr : Value → String
  | .none => "None"
  | .bool true => "True"
  | .bool false => "False"
  | .int n => toString n
  | .str s => s
  | .bytes _ => "bytes"
  | .fsPath s => s
  | .apath uri _ _ => uri
  | .pyDict _ => "dict"
  | .pyList _ => "list"
  | .pyIter _ => "list_iterator"
  | .exc cls msg => cls ++ "(" ++ msg ++ ")"
  | .other _ rep => rep

/-! ## Handle identifiers (`handles.py`: `f"h{counter}"`) -/

/-- Decimal digits, most significant first; the fuel bounds the digit
count (any fuel above `n` is enough). -/
def natDigitsAux : Nat → Nat → List Nat
  | 0, _ => []
  | fuel + 1, n =>
      if n < 10 then [n] else natDigitsAux fuel (n / 10) ++ [n % 10]

/-- Decimal digits of `n`, most significant first. -/
def natDigits (n : Nat) : List Nat :=
  natDigitsAux (n + 1) n

/-- Digits rendered as characters. -/
def digitChars (ds : List Nat) : List Char :=
  ds.map (fun d => Char.ofNat (48 + d))

/-- `f"h{n}"`: the handle identifier for counter value `n`. -/
def handleId (n : Nat) : String :=
  String.mk ('h' :: digitChars (natDigits n))

/-- Numeric value of a digit list (left fold), inverse of `natDigits`. -/
def digitsVal (ds : List Nat) : Nat :=
  ds.foldl (fun acc d => acc * 10 + d) 0

/-- Numeric value of a digit-character list. -/
def charsVal (cs : List Char) : Nat :=
  cs.foldl (fun acc c => acc * 10 + (c.toNat - 48)) 0

/-! ## Association-list operations (model of the Python `dict` inside
`_HandleStore`, which preserves insertion order and keeps keys unique) -/

/-- `d[k]` lookup (first match). -/
def lookupItem : List (String × Value) → String → Option Value
  | [], _ => Option.none
  | (k0, v) :: rest, k => if k0 = k then some v else lookupItem rest k

/-- `d[k] = v`: replace in place if the key exists, else append. -/
def setItem : List (String × Value) → String → Value → List (String × Value)
  | [], k, v => [(k, v)]
  | (k0, v0) :: rest, k, v =>
      if k0 = k then (k0, v) :: rest else (k0, v0) :: setItem rest k v

/-- Removal effect of `d.pop(k, None)`. -/
def removeItem : List (String × Value) → String → List (String × Value)
  | [], _ => []
  | (k0, v0) :: rest, k =>
      if k0 = k then rest else (k0, v0) :: removeItem rest k

/-! ## Handle store (`handles.py` `_HandleStore`) -/

/-- The `_HandleStore` state: insertion-ordered items plus the
process-lifetime counter. -/
structure HandleStore where
  items : List (String × Value)
  counter : Nat

/-- The store at process start. -/
def initialStore : HandleStore := ⟨[], 0⟩

/-- `_HandleStore.put`: bump the counter, render the id, insert. -/
def HandleStore.put (s : HandleStore) (v : Value) : String × HandleStore :=
  let c := s.counter + 1
  let hid := handleId c
  (hid, ⟨setItem s.items hid v, c⟩)

/-- `_HandleStore.get`: look up or raise `ValueError`. -/
def HandleStore.get (s : HandleStore) (handle_id : String) : Except String Value :=
  match lookupItem s.items handle_id with
  | some v => .ok v
  | Option.none => .error ("Unknown handle_id " ++ handle_id ++ ".")

/-- `_HandleStore.drop`: pop, reporting whether the key was present. -/
def HandleStore.drop (s : HandleStore) (handle_id : String) : Bool × HandleStore :=
  ((lookupItem s.items handle_id).isSome,
    ⟨removeItem s.items handle_id, s.counter⟩)

/-- One entry of the output of `_HandleStore.list`. -/
structure HandleInfo where
  handle_id : String
  class_name : String
  summary : String
  deriving DecidableEq

/-- `_HandleStore.list`: class name and summary are rendered from the
stored object at call time. -/
def HandleStore.listInfos (s : HandleStore) : List HandleInfo :=
  s.items.map (fun p => ⟨p.1, pyTypeName p.2, pyRepr p.2⟩)

/-- `_HandleStore.count`. -/
def HandleStore.count (s : HandleStore) : Nat :=
  s.items.length

/-- In-place mutation of the object a handle refers to.  The store keeps
only a reference, so mutating the referenced object is, observationally,
replacing the stored value while keeping the identifier and the counter. -/
def HandleStore.mutate (s : HandleStore) (handle_id : String) (v : Value) :
    HandleStore :=
  if (lookupItem s.items handle_id).isSome then
    ⟨setItem s.items handle_id v, s.counter⟩
  else s

/-- The public store operations, for reasoning about call sequences. -/
inductive StoreOp where
  | put (v : Value)
  | get (handle_id : String)
  | drop (handle_id : String)

/-- State effect of one store operation (`get` does not mutate). -/
def stepOp (s : HandleStore) : StoreOp → HandleStore
  | .put v => (s.put v).2
  | .get _ => s
  | .drop handle_id => (s.drop handle_id).2

/-- State after a sequence of store operations. -/
def runOps (s : HandleStore) (ops : List StoreOp) : HandleStore :=
  ops.foldl stepOp s

/-- Store invariant: every key is `handleId n` for some `1 ≤ n ≤ counter`,
and keys are unique (it models a Python dict). -/
def storeInv (s : HandleStore) : Prop :=
  (∀ p ∈ s.items, ∃ n, 1 ≤ n ∧ n ≤ s.counter ∧ p.1 = handleId n) ∧
    (s.items.map Prod.fst).Nodup

/-- The result record of `_drop_handle_sync`. -/
structure DropHandleResult where
  handle_id : String
  dropped : Bool
  existed : Bool
  remaining_handles : Nat
  deriving DecidableEq

/-- `_drop_handle_sync` from `handles.py`: strip, reject empty, drop
idempotently, always report `dropped=True`. -/
def dropHandleSync (s : HandleStore) (handle_id : String) :
    Except String (DropHandleResult × HandleStore) :=
  let normalized := pyStrip handle_id
  if normalized = "" then .error "handle_id cannot be empty."
  else
    let (existed, s2) := s.drop normalized
    .ok (⟨normalized, true, existed, s2.count⟩, s2)

/-! ## URL parsing (model of `urllib.parse.urlparse` / `urlunparse`, the
stdlib collaborator used by `settings._validate_base_url`) -/

/-- The six components of `urllib.parse.urlparse`. -/
structure UrlParts where
  scheme : String
  netloc : String
  path : String
  params : String
  query : String
  fragment : String
  deriving DecidableEq

/-- Split a character list at the first occurrence of `sep`. -/
def splitFirst : List Char → Char → Option (List Char × List Char)
  | [], _ => Option.none
  | c :: rest, sep =>
      if c = sep then some ([], rest)
      else
        match splitFirst rest sep with
        | some (a, b) => some (c :: a, b)
        | Option.none => Option.none

/-- A valid URL scheme: a letter followed by letters, digits, `+`, `-`,
`.`. -/
def schemeCharsOk : List Char → Bool
  | [] => false
  | c :: rest =>
      c.isAlpha ∧ rest.all (fun d => d.isAlphanum ∨ d = '+' ∨ d = '-' ∨ d = '.')

/-- Scheme extraction of `urlsplit`: the part before the first `:` when it
is a valid scheme (lower-cased), else no scheme. -/
def splitScheme (cs : List Char) : String × List Char :=
  match splitFirst cs ':' with
  | some (pre, post) =>
      if schemeCharsOk pre then (String.mk (pre.map Char.toLower), post)
      else ("", cs)
  | Option.none => ("", cs)

/-- Netloc extraction of `urlsplit`: after a leading `//`, up to the first
`/`, `?` or `#`. -/
def splitNetloc (cs : List Char) : String × List Char :=
  match cs with
  | '/' :: '/' :: rest =>
      let net := rest.takeWhile (fun c => c ≠ '/' ∧ c ≠ '?' ∧ c ≠ '#')
      (String.mk net, rest.drop net.length)
  | _ => ("", cs)

/-- Fragment extraction: everything after the first `#`. -/
def splitFrag (cs : List Char) : List Char × String :=
  match splitFirst cs '#' with
  | some (a, b) => (a, String.mk b)
  | Option.none => (cs, "")

/-- Query extraction: everything after the first `?`. -/
def splitQuery (cs : List Char) : List Char × String :=
  match splitFirst cs '?' with
  | some (a, b) => (a, String.mk b)
  | Option.none => (cs, "")

/-- `_splitparams`: split `;params` out of the last path segment. -/
def splitParams (cs : List Char) : List Char × String :=
  if ';' ∈ cs then
    if '/' ∈ cs then
      let suffix := (cs.reverse.takeWhile (fun c => c ≠ '/')).reverse
      let pre := cs.take (cs.length - suffix.length)
      match splitFirst suffix ';' with
      | some (a, b) => (pre ++ a, String.mk b)
      | Option.none => (cs, "")
    else
      match splitFirst cs ';' with
      | some (a, b) => (a, String.mk b)
      | Option.none => (cs, "")
  else (cs, "")

/-- `urllib.parse.urlparse`. -/
def urlparse (s : String) : UrlParts :=
  let (scheme, rest) := splitScheme s.data
  let (netloc, rest2) := splitNetloc rest
  let (rest3, fragment) := splitFrag rest2
  let (rest4, query) := splitQuery rest3
  let (pathChars, params) := splitParams rest4
  ⟨scheme, netloc, String.mk pathChars, params, query, fragment⟩

/-- `urllib.parse.urlunparse` (via `urlunsplit`). -/
def urlunparse (u : UrlParts) : String :=
  let url0 := if u.params ≠ "" then u.path ++ ";" ++ u.params else u.path
  let url1 :=
    if u.netloc ≠ "" ∨ startsWithSlashSlash url0 then
      "//" ++ u.netloc ++
        (if url0 ≠ "" ∧ ¬ startsWithChar url0 '/' then "/" ++ url0 else url0)
    else url0
  let url2 := if u.scheme ≠ "" then u.scheme ++ ":" ++ url1 else url1
  let url3 := if u.query ≠ "" then url2 ++ "?" ++ u.query else url2
  if u.fragment ≠ "" then url3 ++ "#" ++ u.fragment else url3

/-! ## Settings validators (`settings.py`) -/

/-- `settings._validate_base_url`: strip whitespace and trailing slashes,
require an absolute http/https URL, and default an empty or root path to
`/artifactory`.  The `name` argument of the Python function only feeds the
error message and is omitted. -/
def validateBaseUrl (value : String) : Except String String :=
  let candidate := pyRstripSlash (pyStrip value)
  let parsed := urlparse candidate
  if (parsed.scheme ≠ "http" ∧ parsed.scheme ≠ "https") ∨ parsed.netloc = "" then
    .error ("Invalid base url " ++ value ++ ". Expected an absolute HTTP/HTTPS URL.")
  else if parsed.path = "" ∨ parsed.path = "/" then
    .ok (urlunparse { parsed with path := "/artifactory" })
  else .ok candidate

/-- Characters allowed by `settings._REPO_PATTERN` (`[A-Za-z0-9._-]`). -/
def repoCharOk (c : Char) : Bool :=
  c.isAlphanum ∨ c = '.' ∨ c = '_' ∨ c = '-'

/-- `settings._validate_repository`. -/
def validateRepository (repository : String) : Except String String :=
  let repo := pyStrip repository
  if repo = "" then .error "Repository cannot be empty."
  else if ¬ repo.data.all repoCharOk then
    .error ("Invalid repository " ++ repository ++ ".")
  else .ok repo

/-- Split a character list on `/` (Python `str.split("/")`). -/
def splitSlash : List Char → List (List Char)
  | [] => [[]]
  | c :: rest =>
      let r := splitSlash rest
      if c = '/' then [] :: r
      else
        match r with
        | [] => [[c]]
        | p :: ps => (c :: p) :: ps

/-- Join segments with `/`. -/
def joinSlash : List (List Char) → List Char
  | [] => []
  | [p] => p
  | p :: rest => p ++ '/' :: joinSlash rest

/-- `settings._validate_path`: normalize to forward slashes, collapse
empty/dot forms to the repository root, reject `..` segments. -/
def validatePath (path : String) : Except String String :=
  let cleaned :=
    String.mk ((pyStrip path).data.map (fun c => if c = '\\' then '/' else c))
  if cleaned = "" ∨ cleaned = "." ∨ cleaned = "/" then .ok ""
  else
    let parts :=
      (splitSlash cleaned.data).filter (fun p => p ≠ [] ∧ p ≠ ['.'])
    if parts.any (fun p => p = ['.', '.']) then
      .error "Path cannot contain .. segments."
    else .ok (String.mk (joinSlash parts))

/-! ## Path resolver (`artifactory_client.py`) -/

/-- Process-wide configuration consumed by the bridge: the validated
default base URL (`SETTINGS.artifactory_base_url`) and the default item
cap (`SETTINGS.mcp_default_max_items`). -/
structure Ctx where
  defaultBaseUrl : Option String
  defaultMaxItems : Int

/-- `_resolve_base_url`: an explicit non-blank base URL is validated;
otherwise the configured default is used; failing that, error. -/
def resolveBaseUrl (ctx : Ctx) (base_url : Option String) :
    Except String String :=
  match base_url with
  | some u =>
      if u ≠ "" ∧ pyStrip u ≠ "" then validateBaseUrl u
      else
        match ctx.defaultBaseUrl with
        | some d => .ok d
        | Option.none => .error "Missing Artifactory base URL."
  | Option.none =>
      match ctx.defaultBaseUrl with
      | some d => .ok d
      | Option.none => .error "Missing Artifactory base URL."

/-- `_create_path`: validate repository and relative path, then build the
artifact URL the client object is constructed from. -/
def createPath (base_url repository item_path : String) :
    Except String String := do
  let repo ← validateRepository repository
  let rel ← validatePath item_path
  if rel ≠ "" then .ok (base_url ++ "/" ++ repo ++ "/" ++ rel)
  else .ok (base_url ++ "/" ++ repo)

/-! ## Encoding (`bridge._serialize_value`) -/

/-! `_serialize_value` and its traversal of collections.  The item cap is
passed unchanged into every recursive call, so each collection level is
truncated against its own copy of the cap.  `serializeSeq` carries a fuel
equal to the cap: only the first `maxItems` elements are serialized
(`list(value)[:max_items]`), threading the handle store left to right. -/
mutual

def serializeValue (s : HandleStore) (maxItems : Nat) (createHandles : Bool) :
    Value → J × HandleStore
  | .none => (J.null, s)
  | .bool b => (J.bool b, s)
  | .int n => (J.num n, s)
  | .str t => (J.str t, s)
  | .bytes bs =>
      (J.obj [("type", J.str "bytes"), ("size", J.num bs.length),
        ("base64", J.str (b64encode bs))], s)
  | .fsPath t => (J.str t, s)
  | .apath uri repo pir =>
      (J.obj [("type", J.str "artifactory_path"), ("uri", J.str uri),
        ("repository", J.str repo), ("path", J.str pir)], s)
  | .pyDict fields =>
      let (out, s2) := serializeFields s maxItems createHandles fields
      (J.obj out, s2)
  | .pyList items =>
      let (out, s2) := serializeSeq s maxItems createHandles maxItems items
      if items.length > maxItems then
        (J.obj [("type", J.str "truncated_list"), ("items", J.arr out),
          ("total", J.num items.length), ("returned", J.num maxItems)], s2)
      else (J.arr out, s2)
  | .pyIter items =>
      let (out, s2) := serializeSeq s maxItems createHandles maxItems items
      (J.obj [("type", J.str "iterator"), ("items", J.arr out),
        ("truncated", J.bool (decide (items.length > maxItems))),
        ("returned", J.num (min items.length maxItems))], s2)
  | .exc cls msg =>
      (J.obj [("type", J.str "exception"), ("class", J.str cls),
        ("message", J.str msg)], s)
  | .other cls rep =>
      if createHandles then
        let (hid, s2) := s.put (.other cls rep)
        (J.obj [("type", J.str "handle"), ("handle_id", J.str hid),
          ("class_name", J.str cls), ("summary", J.str rep)], s2)
      else (J.obj [("type", J.str "repr"), ("value", J.str rep)], s)

def serializeFields (s : HandleStore) (maxItems : Nat) (createHandles : Bool) :
    List (String × Value) → List (String × J) × HandleStore
  | [] => ([], s)
  | (k, v) :: rest =>
      let (j, s2) := serializeValue s maxItems createHandles v
      let (js, s3) := serializeFields s2 maxItems createHandles rest
      ((k, j) :: js, s3)

def serializeSeq (s : HandleStore) (maxItems : Nat) (createHandles : Bool) :
    Nat → List Value → List J × HandleStore
  | _, [] => ([], s)
  | 0, _ :: _ => ([], s)
  | fuel + 1, v :: rest =>
      let (j, s2) := serializeValue s maxItems createHandles v
      let (js, s3) := serializeSeq s2 maxItems createHandles fuel rest
      (j :: js, s3)

end

/-! ## Decoding (`bridge._decode_json_argument` / `_decode_special_argument`) -/

/-- Decoded argument values: what the bridge passes to an invoked method. -/
inductive DVal where
  | null : DVal
  | bool (b : Bool) : DVal
  | int (n : Int) : DVal
  | str (s : String) : DVal
  | bytes (bs : List Nat) : DVal
  | stored (v : Value) : DVal
  | pathObj (url : String) : DVal
  | list (items : List DVal) : DVal
  | dict (fields : List (String × DVal)) : DVal

/-- JSON-object field lookup (`mapping.get(key)`, keys unique). -/
def lookupField : List (String × J) → String → Option J
  | [], _ => Option.none
  | (k0, v) :: rest, k => if k0 = k then some v else lookupField rest k

/-- The `__path__` body of `_decode_special_argument`: field type checks in
source order, then base-URL resolution, then path construction. -/
def decodePathRef (ctx : Ctx) (pf : List (String × J)) : Except String DVal :=
  match lookupField pf "repository" with
  | some (J.str repo) =>
      let pathField : Option String :=
        match lookupField pf "path" with
        | Option.none => some ""
        | some (J.str t) => some t
        | some _ => Option.none
      match pathField with
      | Option.none => .error "__path__.path must be a string."
      | some rel =>
          let baseField : Except String (Option String) :=
            match lookupField pf "base_url" with
            | Option.none => .ok Option.none
            | some J.null => .ok Option.none
            | some (J.str u) => .ok (some u)
            | some _ => .error "__path__.base_url must be a string if provided."
          match baseField with
          | .error e => .error e
          | .ok optBase => do
              let resolved ← resolveBaseUrl ctx optBase
              let url ← createPath resolved repo rel
              .ok (DVal.pathObj url)
  | _ => .error "__path__.repository must be a string."

mutual

def decodeJsonArgument (ctx : Ctx) (s : HandleStore) : J → Except String DVal
  | .null => .ok .null
  | .bool b => .ok (.bool b)
  | .num n => .ok (.int n)
  | .str t => .ok (.str t)
  | .arr items =>
      match decodeElems ctx s items with
      | .ok ds => .ok (.list ds)
      | .error e => .error e
  | .obj fields => decodeSpecialArgument ctx s fields

/-- `_decode_special_argument`: the three single-key special shapes, with
fall-through to generic mapping decode otherwise.  A singleton association
list is exactly a Python dict with `len(mapping) == 1`. -/
def decodeSpecialArgument (ctx : Ctx) (s : HandleStore) :
    List (String × J) → Except String DVal
  | [(k, v)] =>
      if k = "__handle_id__" then
        match v with
        | J.str handle_id =>
            match s.get handle_id with
            | .ok obj => .ok (.stored obj)
            | .error e => .error e
        | _ => .error "__handle_id__ must be a string."
      else if k = "__bytes_base64__" then
        match v with
        | J.str encoded =>
            match b64decode encoded with
            | some bs => .ok (.bytes bs)
            | Option.none => .error "Invalid __bytes_base64__ payload."
        | _ => .error "__bytes_base64__ must be a string."
      else if k = "__path__" then
        match v with
        | J.obj pf => decodePathRef ctx pf
        | _ => .error "__path__ must be an object."
      else decodeFields ctx s [(k, v)]
  | fields => decodeFields ctx s fields

def decodeFields (ctx : Ctx) (s : HandleStore) :
    List (String × J) → Except String DVal
  | [] => .ok (.dict [])
  | (k, v) :: rest =>
      match decodeJsonArgument ctx s v with
      | .error e => .error e
      | .ok d =>
          match decodeFields ctx s rest with
          | .ok (.dict ds) => .ok (.dict ((k, d) :: ds))
          | .ok other => .ok other
          | .error e => .error e

def decodeElems (ctx : Ctx) (s : HandleStore) :
    List J → Except String (List DVal)
  | [] => .ok []
  | v :: rest =>
      match decodeJsonArgument ctx s v with
      | .error e => .error e
      | .ok d =>
          match decodeElems ctx s rest with
          | .ok ds => .ok (d :: ds)
          | .error e => .error e

end

/-! ## Invocation engine (`bridge._invoke_method_sync`) -/

/-- Outcome of calling the resolved member with decoded arguments. -/
inductive CallOutcome where
  | ret (v : Value)
  | raised (msg : String)
  | awaitable

/-- An attribute of the target: whether it is callable, and, when called,
what it does.  Non-callable data attributes carry a dummy behavior. -/
structure Member where
  callable : Bool
  call : List DVal → List (String × DVal) → CallOutcome

/-- An invocation target: its attribute surface and its type name. -/
structure Target where
  attrs : List (String × Member)
  typeName : String

/-- Attribute lookup (`hasattr` / `getattr`). -/
def lookupMember : List (String × Member) → String → Option Member
  | [], _ => Option.none
  | (k0, m) :: rest, k => if k0 = k then some m else lookupMember rest k

/-- `_public_method_names_for_target`: sorted callable attribute names not
starting with an underscore. -/
def publicMethodNames (t : Target) : List String :=
  (((t.attrs.filter (fun p => p.2.callable ∧
    ¬ startsWithChar p.1 '_')).map Prod.fst).mergeSort (fun a b => a ≤ b))

/-- `_render_method_suggestions`, with the `difflib.get_close_matches`
collaborator abstracted as a function argument. -/
def renderMethodSuggestions (closeMatches : String → List String → List String)
    (name : String) (candidates : List String) : String :=
  if candidates = [] then ""
  else
    match closeMatches name candidates with
    | [] => ""
    | [m] => " Did you mean " ++ m ++ "?"
    | ms => " Did you mean one of: " ++ String.intercalate ", " ms ++ "?"

/-- The distinct failure modes of `_invoke_method_sync` (in Python all are
`ValueError`s distinguished by message). -/
inductive BridgeError where
  | maxItemsRange
  | emptyMethod
  | privateMethod (name : String)
  | methodNotFound (name : String) (suggestion : String)
  | notCallable (name : String)
  | valueError (msg : String)
  | methodRaised (msg : String)
  | awaitableResult (name : String)
  deriving DecidableEq

/-- `_normalize_max_items`. -/
def normalizeMaxItems (ctx : Ctx) : Option Int → Except BridgeError Int
  | Option.none => .ok ctx.defaultMaxItems
  | some m => if m < 1 ∨ m > 10000 then .error .maxItemsRange else .ok m

/-- Decode the positional arguments, wrapping decode failures. -/
def decodeArgsE (ctx : Ctx) (s : HandleStore) (args : List J) :
    Except BridgeError (List DVal) :=
  match decodeElems ctx s args with
  | .ok ds => .ok ds
  | .error e => .error (.valueError e)

/-- Decode the keyword arguments, wrapping decode failures. -/
def decodeKwargsE (ctx : Ctx) (s : HandleStore) (kwargs : List (String × J)) :
    Except BridgeError (List (String × DVal)) :=
  match kwargs with
  | [] => .ok []
  | (k, v) :: rest =>
      match decodeJsonArgument ctx s v with
      | .error e => .error (.valueError e)
      | .ok d =>
          match decodeKwargsE ctx s rest with
          | .ok ds => .ok ((k, d) :: ds)
          | .error e => .error e

/-- The result envelope of `_invoke_method_sync`. -/
structure GenericMethodResult where
  target : String
  method : String
  result_type : String
  result : J

/-- `_invoke_method_sync`: cap normalization, name validation (empty, then
private prefix), attribute lookup with suggestions, callability check,
argument decode, call, awaitable check, result encoding. -/
def invokeMethodSync (ctx : Ctx)
    (closeMatches : String → List String → List String) (s : HandleStore)
    (target : Target) (targetLabel : String) (method : String)
    (positionalArgs : List J) (keywordArgs : List (String × J))
    (maxItems : Option Int) :
    Except BridgeError (GenericMethodResult × HandleStore) :=
  match normalizeMaxItems ctx maxItems with
  | .error e => .error e
  | .ok rmi =>
    let name := pyStrip method
    if name = "" then .error .emptyMethod
    else if startsWithChar name '_' then .error (.privateMethod name)
    else
      let names := publicMethodNames target
      match lookupMember target.attrs name with
      | Option.none =>
          .error (.methodNotFound name
            (renderMethodSuggestions closeMatches name names))
      | some mem =>
          if ¬ mem.callable then .error (.notCallable name)
          else
            match decodeArgsE ctx s positionalArgs with
            | .error e => .error e
            | .ok dargs =>
                match decodeKwargsE ctx s keywordArgs with
                | .error e => .error e
                | .ok dkwargs =>
                    match mem.call dargs dkwargs with
                    | .raised msg => .error (.methodRaised msg)
                    | .awaitable => .error (.awaitableResult name)
                    | .ret v =>
                        let (j, s2) := serializeValue s rmi.toNat true v
                        .ok (⟨targetLabel, name, pyTypeName v, j⟩, s2)

theorem charSixtet_sixtetChar {k : Nat} (hk : k < 64) :
    charSixtet (sixtetChar k) = some k := by
  revert hk
  revert k
  decide

theorem sixtetChar_ne_pad {k : Nat} (hk : k < 64) : sixtetChar k ≠ '=' := by
  revert hk
  revert k
  decide

theorem mulAdd_div (m x y : Nat) (hm : 0 < m) (hy : y < m) :
    (x * m + y) / m = x := by
  rw [Nat.mul_comm x m, Nat.mul_add_div hm, Nat.div_eq_of_lt hy, Nat.add_zero]

theorem mulAdd_mod (m x y : Nat) (hm : 0 < m) (hy : y < m) :
    (x * m + y) % m = y := by
  rw [Nat.mul_comm x m, Nat.mul_add_mod, Nat.mod_eq_of_lt hy]

theorem dec_byte0 (a b : Nat) (ha : a < 256) (hb : b < 256) :
    a / 4 * 4 + (a % 4 * 16 + b / 16) / 16 = a := by
  rw [mulAdd_div 16 (a % 4) (b / 16) (by norm_num) (by omega)]
  omega

theorem dec_byte0_short (a : Nat) (ha : a < 256) :
    a / 4 * 4 + a % 4 * 16 / 16 = a := by
  have h := mulAdd_div 16 (a % 4) 0 (by norm_num) (by norm_num)
  rw [Nat.add_zero] at h
  rw [h]
  omega

theorem dec_byte1 (a b c : Nat) (hb : b < 256) (hc : c < 256) :
    (a % 4 * 16 + b / 16) % 16 * 16 + (b % 16 * 4 + c / 64) / 4 = b := by
  rw [mulAdd_mod 16 (a % 4) (b / 16) (by norm_num) (by omega),
    mulAdd_div 4 (b % 16) (c / 64) (by norm_num) (by omega)]
  omega

theorem dec_byte1_short (a b : Nat) (hb : b < 256) :
    (a % 4 * 16 + b / 16) % 16 * 16 + b % 16 * 4 / 4 = b := by
  have h := mulAdd_div 4 (b % 16) 0 (by norm_num) (by norm_num)
  rw [Nat.add_zero] at h
  rw [mulAdd_mod 16 (a % 4) (b / 16) (by norm_num) (by omega), h]
  omega

theorem dec_byte2 (b c : Nat) (hc : c < 256) :
    (b % 16 * 4 + c / 64) % 4 * 64 + c % 64 = c := by
  rw [mulAdd_mod 4 (b % 16) (c / 64) (by norm_num) (by omega)]
  omega

theorem b64_roundtrip_chars (bs : List Nat) (h : bytesOk bs) :
    b64decodeChars (b64encodeChars bs) = some bs := by
  induction bs using b64encodeChars.induct with
  | case1 => simp [b64encodeChars, b64decodeChars]
  | case2 a =>
      have ha : a < 256 := h a (by simp)
      have h1 : a / 4 < 64 := by omega
      have h2 : a % 4 * 16 < 64 := by omega
      simp only [b64encodeChars, b64decodeChars, charSixtet_sixtetChar h1,
        charSixtet_sixtetChar h2]
      simp
      omega
  | case3 a b =>
      have ha : a < 256 := h a (by simp)
      have hb : b < 256 := h b (by simp)
      have h1 : a / 4 < 64 := by omega
      have h2 : a % 4 * 16 + b / 16 < 64 := by omega
      have h3 : b % 16 * 4 < 64 := by omega
      simp only [b64encodeChars, b64decodeChars, charSixtet_sixtetChar h1,
        charSixtet_sixtetChar h2, charSixtet_sixtetChar h3]
      rw [if_pos ⟨trivial, trivial⟩, if_neg (sixtetChar_ne_pad h3)]
      rw [dec_byte0 a b ha hb, dec_byte1_short a b hb]
  | case4 a b c rest ih =>
      have ha : a < 256 := h a (by simp)
      have hb : b < 256 := h b (by simp)
      have hc : c < 256 := h c (by simp)
      have hrest : bytesOk rest := fun x hx => h x (by simp [hx])
      have h1 : a / 4 < 64 := by omega
      have h2 : a % 4 * 16 + b / 16 < 64 := by omega
      have h3 : b % 16 * 4 + c / 64 < 64 := by omega
      have h4 : c % 64 < 64 := by omega
      have henc : b64decodeChars (b64encodeChars rest) = some rest := ih hrest
      simp only [b64encodeChars, b64decodeChars, charSixtet_sixtetChar h1,
        charSixtet_sixtetChar h2, charSixtet_sixtetChar h3,
        charSixtet_sixtetChar h4, henc]
      rw [if_neg (by intro hand; exact sixtetChar_ne_pad h4 hand.2)]
      rw [dec_byte0 a b ha hb, dec_byte1 a b c hb hc, dec_byte2 b c hc]

theorem b64_roundtrip (bs : List Nat) (h : bytesOk bs) :
    b64decode (b64encode bs) = some bs := by
  simpa [b64decode, b64encode] using b64_roundtrip_chars bs h

/-! ## Handle-identifier lemmas -/

theorem digitsVal_append (ds : List Nat) (d : Nat) :
    digitsVal (ds ++ [d]) = digitsVal ds * 10 + d := by
  simp [digitsVal, List.foldl_append]

theorem digitsVal_natDigitsAux (fuel n : Nat) (h : n < fuel) :
    digitsVal (natDigitsAux fuel n) = n := by
  induction fuel generalizing n with
  | zero => omega
  | succ fuel ih =>
      by_cases hn : n < 10
      · rw [natDigitsAux, if_pos hn]
        simp [digitsVal]
      · rw [natDigitsAux, if_neg hn, digitsVal_append,
          ih (n / 10) (by omega)]
        omega

theorem digitsVal_natDigits (n : Nat) : digitsVal (natDigits n) = n :=
  digitsVal_natDigitsAux (n + 1) n (by omega)

theorem natDigitsAux_lt (fuel n : Nat) : ∀ d ∈ natDigitsAux fuel n, d < 10 := by
  induction fuel generalizing n with
  | zero =>
      intro d hd
      simp [natDigitsAux] at hd
  | succ fuel ih =>
      by_cases hn : n < 10
      · rw [natDigitsAux, if_pos hn]
        intro d hd
        simp at hd
        omega
      · rw [natDigitsAux, if_neg hn]
        intro d hd
        rcases List.mem_append.mp hd with h1 | h2
        · exact ih (n / 10) d h1
        · simp at h2
          omega

theorem natDigits_lt (n : Nat) : ∀ d ∈ natDigits n, d < 10 :=
  natDigitsAux_lt (n + 1) n

theorem charToNat_digit : ∀ d, d < 10 → (Char.ofNat (48 + d)).toNat = 48 + d := by
  decide

theorem foldl_digitChars (ds : List Nat) (acc : Nat) (h : ∀ d ∈ ds, d < 10) :
    (digitChars ds).foldl (fun a c => a * 10 + (c.toNat - 48)) acc =
      ds.foldl (fun a d => a * 10 + d) acc := by
  induction ds generalizing acc with
  | nil => rfl
  | cons d rest ih =>
      have hd : d < 10 := h d (by simp)
      simp only [digitChars, List.map_cons, List.foldl_cons]
      rw [charToNat_digit d hd]
      have : acc * 10 + (48 + d - 48) = acc * 10 + d := by omega
      rw [this]
      exact ih (acc * 10 + d) (fun x hx => h x (by simp [hx]))

theorem charsVal_digitChars (ds : List Nat) (h : ∀ d ∈ ds, d < 10) :
    charsVal (digitChars ds) = digitsVal ds :=
  foldl_digitChars ds 0 h

theorem handleId_inj {m n : Nat} (h : handleId m = handleId n) : m = n := by
  have hdata : 'h' :: digitChars (natDigits m) =
      'h' :: digitChars (natDigits n) := congrArg String.data h
  have hchars : digitChars (natDigits m) = digitChars (natDigits n) :=
    List.tail_eq_of_cons_eq hdata
  have hv : charsVal (digitChars (natDigits m)) =
      charsVal (digitChars (natDigits n)) := congrArg charsVal hchars
  rw [charsVal_digitChars _ (natDigits_lt m),
    charsVal_digitChars _ (natDigits_lt n),
    digitsVal_natDigits, digitsVal_natDigits] at hv
  exact hv

/-! ## Association-list lemmas -/

theorem lookupItem_setItem_self (items : List (String × Value)) (k : String)
    (v : Value) : lookupItem (setItem items k v) k = some v := by
  induction items with
  | nil => simp [setItem, lookupItem]
  | cons p rest ih =>
      obtain ⟨k0, v0⟩ := p
      by_cases hk : k0 = k
      · simp [setItem, hk, lookupItem]
      · simp [setItem, hk, lookupItem, ih]

theorem lookupItem_setItem_ne (items : List (String × Value)) (k k2 : String)
    (v : Value) (h : k2 ≠ k) :
    lookupItem (setItem items k v) k2 = lookupItem items k2 := by
  induction items with
  | nil =>
      simp only [setItem, lookupItem]
      rw [if_neg (fun he => h he.symm)]
  | cons p rest ih =>
      obtain ⟨k0, v0⟩ := p
      by_cases hk : k0 = k
      · have hk02 : ¬ k0 = k2 := fun he => h (he ▸ hk)
        simp only [setItem, if_pos hk, lookupItem]
        rw [if_neg hk02, if_neg hk02]
      · simp only [setItem, if_neg hk, lookupItem]
        by_cases hk2 : k0 = k2
        · rw [if_pos hk2, if_pos hk2]
        · rw [if_neg hk2, if_neg hk2, ih]

theorem lookupItem_removeItem_ne (items : List (String × Value)) (k k2 : String)
    (h : k2 ≠ k) :
    lookupItem (removeItem items k) k2 = lookupItem items k2 := by
  induction items with
  | nil => rfl
  | cons p rest ih =>
      obtain ⟨k0, v0⟩ := p
      by_cases hk : k0 = k
      · have hk02 : ¬ k0 = k2 := fun he => h (he ▸ hk)
        simp only [removeItem, if_pos hk, lookupItem]
        rw [if_neg hk02]
      · simp only [removeItem, if_neg hk, lookupItem]
        by_cases hk2 : k0 = k2
        · rw [if_pos hk2, if_pos hk2]
        · rw [if_neg hk2, if_neg hk2, ih]

theorem keys_removeItem_sublist (items : List (String × Value)) (k : String) :
    ((removeItem items k).map Prod.fst).Sublist (items.map Prod.fst) := by
  induction items with
  | nil => simp [removeItem]
  | cons p rest ih =>
      obtain ⟨k0, v0⟩ := p
      by_cases hk : k0 = k
      · simp only [removeItem, if_pos hk, List.map_cons]
        exact (List.sublist_cons_self _ _)
      · simp only [removeItem, if_neg hk, List.map_cons]
        exact List.Sublist.cons₂ _ ih

theorem lookupItem_eq_none_iff (items : List (String × Value)) (k : String) :
    lookupItem items k = Option.none ↔ k ∉ items.map Prod.fst := by
  induction items with
  | nil => simp [lookupItem]
  | cons p rest ih =>
      obtain ⟨k0, v0⟩ := p
      simp only [lookupItem, List.map_cons, List.mem_cons]
      by_cases hk : k0 = k
      · subst hk
        simp
      · rw [if_neg hk, ih]
        constructor
        · intro hnot hmem
          rcases hmem with he | hmem2
          · exact hk he.symm
          · exact hnot hmem2
        · intro hnot hmem
          exact hnot (Or.inr hmem)

theorem lookupItem_removeItem_self (items : List (String × Value)) (k : String)
    (hnd : (items.map Prod.fst).Nodup) :
    lookupItem (removeItem items k) k = Option.none := by
  induction items with
  | nil => rfl
  | cons p rest ih =>
      obtain ⟨k0, v0⟩ := p
      simp only [List.map_cons, List.nodup_cons] at hnd
      by_cases hk : k0 = k
      · subst hk
        simp only [removeItem, if_pos rfl]
        exact (lookupItem_eq_none_iff rest k0).mpr hnd.1
      · simp only [removeItem, if_neg hk, lookupItem]
        exact ih hnd.2

theorem mem_setItem (items : List (String × Value)) (k : String) (v : Value)
    (p : String × Value) (h : p ∈ setItem items k v) :
    p = (k, v) ∨ p ∈ items := by
  induction items with
  | nil =>
      simp only [setItem, List.mem_singleton] at h
      exact Or.inl h
  | cons q rest ih =>
      obtain ⟨k0, v0⟩ := q
      by_cases hk : k0 = k
      · simp only [setItem, if_pos hk, List.mem_cons] at h
        rcases h with h1 | h1
        · exact Or.inl (by rw [h1, hk])
        · exact Or.inr (List.mem_cons_of_mem _ h1)
      · simp only [setItem, if_neg hk, List.mem_cons] at h
        rcases h with h1 | h1
        · exact Or.inr (List.mem_cons.mpr (Or.inl h1))
        · rcases ih h1 with h2 | h2
          · exact Or.inl h2
          · exact Or.inr (List.mem_cons_of_mem _ h2)

theorem mem_removeItem (items : List (String × Value)) (k : String)
    (p : String × Value) (h : p ∈ removeItem items k) : p ∈ items := by
  induction items with
  | nil => simpa [removeItem] using h
  | cons q rest ih =>
      obtain ⟨k0, v0⟩ := q
      by_cases hk : k0 = k
      · simp only [removeItem, if_pos hk] at h
        simp [h]
      · simp only [removeItem, if_neg hk, List.mem_cons] at h
        rcases h with h | h
        · simp [h]
        · simp [ih h]

theorem lookupItem_mem (items : List (String × Value)) (k : String) (v : Value)
    (h : lookupItem items k = some v) : (k, v) ∈ items := by
  induction items with
  | nil => simp [lookupItem] at h
  | cons q rest ih =>
      obtain ⟨k0, v0⟩ := q
      by_cases hk : k0 = k
      · subst hk
        simp [lookupItem] at h
        subst h
        exact List.mem_cons_self _ _
      · simp only [lookupItem, if_neg hk] at h
        exact List.mem_cons_of_mem _ (ih h)

theorem setItem_of_absent (items : List (String × Value)) (k : String)
    (v : Value) (h : lookupItem items k = Option.none) :
    setItem items k v = items ++ [(k, v)] := by
  induction items with
  | nil => simp [setItem]
  | cons q rest ih =>
      obtain ⟨k0, v0⟩ := q
      by_cases hk : k0 = k
      · subst hk
        simp [lookupItem] at h
      · simp only [lookupItem, if_neg hk] at h
        simp [setItem, hk, ih h]

/-! ## Handle-store invariant lemmas -/

theorem counter_stepOp (s : HandleStore) (op : StoreOp) :
    s.counter ≤ (stepOp s op).counter := by
  cases op <;> simp [stepOp, HandleStore.put, HandleStore.drop]

theorem counter_runOps (s : HandleStore) (ops : List StoreOp) :
    s.counter ≤ (runOps s ops).counter := by
  induction ops generalizing s with
  | nil => exact Nat.le.refl
  | cons op rest ih =>
      calc s.counter ≤ (stepOp s op).counter := counter_stepOp s op
        _ ≤ (runOps (stepOp s op) rest).counter := ih (stepOp s op)

theorem storeInv_initial : storeInv initialStore := by
  constructor
  · intro p hp
    simp [initialStore] at hp
  · simp [initialStore]

theorem fresh_key_absent (s : HandleStore) (hinv : storeInv s) (m : Nat)
    (hm : s.counter < m) :
    lookupItem s.items (handleId m) = Option.none := by
  rcases hv : lookupItem s.items (handleId m) with _ | v
  · rfl
  · exfalso
    obtain ⟨n, hn1, hn2, hn3⟩ := hinv.1 _ (lookupItem_mem _ _ _ hv)
    simp only at hn3
    have : m = n := handleId_inj hn3
    omega

theorem storeInv_stepOp (s : HandleStore) (op : StoreOp) (hinv : storeInv s) :
    storeInv (stepOp s op) := by
  cases op with
  | get handle_id => exact hinv
  | put v =>
      have habs : lookupItem s.items (handleId (s.counter + 1)) = Option.none :=
        fresh_key_absent s hinv (s.counter + 1) (by omega)
      constructor
      · intro p hp
        simp only [stepOp, HandleStore.put] at hp
        rcases mem_setItem _ _ _ _ hp with h1 | h1
        · exact ⟨s.counter + 1, by omega, by simp [stepOp, HandleStore.put],
            by rw [h1]⟩
        · obtain ⟨n, hn1, hn2, hn3⟩ := hinv.1 p h1
          exact ⟨n, hn1, by simp [stepOp, HandleStore.put]; omega, hn3⟩
      · simp only [stepOp, HandleStore.put]
        rw [setItem_of_absent _ _ _ habs]
        rw [List.map_append]
        simp only [List.map_cons, List.map_nil]
        rw [List.nodup_append]
        refine ⟨hinv.2, List.nodup_singleton _, ?_⟩
        intro a ha hb
        simp only [List.mem_singleton] at hb
        subst hb
        exact ((lookupItem_eq_none_iff _ _).mp habs) ha
  | drop handle_id =>
      constructor
      · intro p hp
        simp only [stepOp, HandleStore.drop] at hp
        obtain ⟨n, hn1, hn2, hn3⟩ := hinv.1 p (mem_removeItem _ _ _ hp)
        exact ⟨n, hn1, by simpa [stepOp, HandleStore.drop] using hn2, hn3⟩
      · simp only [stepOp, HandleStore.drop]
        exact List.Nodup.sublist (keys_removeItem_sublist _ _) hinv.2

theorem storeInv_runOps (s : HandleStore) (ops : List StoreOp)
    (hinv : storeInv s) : storeInv (runOps s ops) := by
  induction ops generalizing s with
  | nil => exact hinv
  | cons op rest ih => exact ih (stepOp s op) (storeInv_stepOp s op hinv)

theorem lookup_preserved_stepOp (s : HandleStore) (op : StoreOp) (n : Nat)
    (hn : n ≤ s.counter) (hop : op ≠ StoreOp.drop (handleId n)) :
    lookupItem (stepOp s op).items (handleId n) =
      lookupItem s.items (handleId n) := by
  cases op with
  | get handle_id => rfl
  | put v =>
      simp only [stepOp, HandleStore.put]
      exact lookupItem_setItem_ne _ _ _ _
        (fun he => by have := handleId_inj he; omega)
  | drop handle_id =>
      simp only [stepOp, HandleStore.drop]
      exact lookupItem_removeItem_ne _ _ _
        (fun he => hop (by rw [he]))

theorem lookup_preserved_runOps (s : HandleStore) (ops : List StoreOp) (n : Nat)
    (hn : n ≤ s.counter) (hops : StoreOp.drop (handleId n) ∉ ops) :
    lookupItem (runOps s ops).items (handleId n) =
      lookupItem s.items (handleId n) := by
  induction ops generalizing s with
  | nil => rfl
  | cons op rest ih =>
      have hop : op ≠ StoreOp.drop (handleId n) :=
        fun he => hops (by rw [he]; exact List.mem_cons_self _ _)
      have hrest : StoreOp.drop (handleId n) ∉ rest :=
        fun hm => hops (List.mem_cons_of_mem _ hm)
      calc lookupItem (runOps (stepOp s op) rest).items (handleId n)
          = lookupItem (stepOp s op).items (handleId n) :=
            ih (stepOp s op) (le_trans hn (counter_stepOp s op)) hrest
        _ = lookupItem s.items (handleId n) :=
            lookup_preserved_stepOp s op n hn hop

theorem absent_stepOp (s : HandleStore) (op : StoreOp) (n : Nat)
    (hn : n ≤ s.counter)
    (habs : lookupItem s.items (handleId n) = Option.none) :
    lookupItem (stepOp s op).items (handleId n) = Option.none := by
  cases op with
  | get handle_id => exact habs
  | put v =>
      simp only [stepOp, HandleStore.put]
      rw [lookupItem_setItem_ne _ _ _ _
        (fun he => by have := handleId_inj he; omega)]
      exact habs
  | drop handle_id =>
      simp only [stepOp, HandleStore.drop]
      rw [lookupItem_eq_none_iff] at habs ⊢
      intro hmem
      exact habs (List.Sublist.mem hmem (keys_removeItem_sublist _ _))

theorem absent_runOps (s : HandleStore) (ops : List StoreOp) (n : Nat)
    (hn : n ≤ s.counter)
    (habs : lookupItem s.items (handleId n) = Option.none) :
    lookupItem (runOps s ops).items (handleId n) = Option.none := by
  induction ops generalizing s with
  | nil => exact habs
  | cons op rest ih =>
      exact ih (stepOp s op) (le_trans hn (counter_stepOp s op))
        (absent_stepOp s op n hn habs)

/-! ## Claim theorems: handle store (C2, C6, C7, C8) -/

/-- C2 counterexample: the listed summary is *not* the one computed at
insertion time — after an in-place mutation of the wrapped object, `list`
reports the new rendering, because `_HandleStore.list` calls `repr(obj)`
at call time. -/
theorem C2_list_summary_counterexample :
    (((initialStore.put (Value.other "Box" "Box(1)")).2.mutate "h1"
        (Value.other "Box" "Box(2)")).listInfos =
      [⟨"h1", "Box", "Box(2)"⟩]) ∧
    (((initialStore.put (Value.other "Box" "Box(1)")).2.mutate "h1"
        (Value.other "Box" "Box(2)")).listInfos ≠
      [⟨"h1", "Box", "Box(1)"⟩]) := by
  constructor
  · rfl
  · decide

/-- C2 (amended): `_HandleStore.list` re-renders the class name and summary
from the current state of the stored object on every call, so a stored
handle always lists with the current rendering, and mutating the object
after `put` is reflected in later `list` output. -/
theorem C2_list_rerenders (s : HandleStore) (handle_id : String) (v w : Value)
    (hv : lookupItem s.items handle_id = some v) :
    (⟨handle_id, pyTypeName v, pyRepr v⟩ : HandleInfo) ∈ s.listInfos ∧
    (⟨handle_id, pyTypeName w, pyRepr w⟩ : HandleInfo) ∈
      (s.mutate handle_id w).listInfos := by
  constructor
  · exact List.mem_map_of_mem _ (lookupItem_mem _ _ _ hv)
  · have hsome : (lookupItem s.items handle_id).isSome := by rw [hv]; rfl
    simp only [HandleStore.mutate, if_pos hsome, HandleStore.listInfos]
    exact List.mem_map_of_mem _
      (lookupItem_mem _ _ _ (lookupItem_setItem_self s.items handle_id w))

/-- C2 witness: instantiating the amended theorem on a one-handle store. -/
theorem C2_list_rerenders_witness :
    (⟨"h1", "Box", "Box(1)"⟩ : HandleInfo) ∈
      (initialStore.put (Value.other "Box" "Box(1)")).2.listInfos ∧
    (⟨"h1", "Box", "Box(2)"⟩ : HandleInfo) ∈
      ((initialStore.put (Value.other "Box" "Box(1)")).2.mutate "h1"
        (Value.other "Box" "Box(2)")).listInfos :=
  C2_list_rerenders (initialStore.put (Value.other "Box" "Box(1)")).2 "h1"
    (Value.other "Box" "Box(1)") (Value.other "Box" "Box(2)") rfl

/-- C6: for a handle id returned by `put`, `get` keeps returning the stored
object across any operations that do not drop that id; once the id is
dropped, every later `get` fails with the unknown-handle error, whatever
operations follow. -/
theorem C6_get_until_drop (ops0 : List StoreOp) (v : Value)
    (ops1 ops2 : List StoreOp) :
    (StoreOp.drop ((runOps initialStore ops0).put v).1 ∉ ops1 →
      (runOps ((runOps initialStore ops0).put v).2 ops1).get
          ((runOps initialStore ops0).put v).1 = .ok v) ∧
    (runOps ((runOps ((runOps initialStore ops0).put v).2 ops1).drop
          ((runOps initialStore ops0).put v).1).2 ops2).get
        ((runOps initialStore ops0).put v).1 =
      .error ("Unknown handle_id " ++
        ((runOps initialStore ops0).put v).1 ++ ".") := by
  set s0 := runOps initialStore ops0 with hs0
  have hinv0 : storeInv s0 := storeInv_runOps _ _ storeInv_initial
  have hinv1 : storeInv (s0.put v).2 := storeInv_stepOp s0 (.put v) hinv0
  simp only [HandleStore.put]
  constructor
  · intro hops
    have hpres := lookup_preserved_runOps
      ⟨setItem s0.items (handleId (s0.counter + 1)) v, s0.counter + 1⟩
      ops1 (s0.counter + 1) (by simp) hops
    simp only [HandleStore.get, hpres, lookupItem_setItem_self]
  · set t := runOps
      ⟨setItem s0.items (handleId (s0.counter + 1)) v, s0.counter + 1⟩ ops1
      with ht
    have hinvt : storeInv t := storeInv_runOps _ _ hinv1
    have habs : lookupItem (removeItem t.items (handleId (s0.counter + 1)))
        (handleId (s0.counter + 1)) = Option.none :=
      lookupItem_removeItem_self _ _ hinvt.2
    have hn : s0.counter + 1 ≤ t.counter := by
      rw [ht]
      have h := counter_runOps
        ⟨setItem s0.items (handleId (s0.counter + 1)) v, s0.counter + 1⟩ ops1
      exact h
    have habs2 := absent_runOps ⟨removeItem t.items (handleId (s0.counter + 1)),
      t.counter⟩ ops2 (s0.counter + 1) hn habs
    simp only [HandleStore.drop, HandleStore.get, habs2]

/-- C6 witness: a concrete put/get/drop history. -/
theorem C6_get_until_drop_witness :
    StoreOp.drop ((runOps initialStore []).put (Value.int 7)).1 ∉
      [StoreOp.put (Value.int 8)] ∧
    (runOps ((runOps initialStore []).put (Value.int 7)).2
        [StoreOp.put (Value.int 8)]).get
      ((runOps initialStore []).put (Value.int 7)).1 = .ok (Value.int 7) :=
  have hnot : StoreOp.drop ((runOps initialStore []).put (Value.int 7)).1 ∉
      [StoreOp.put (Value.int 8)] := by simp
  ⟨hnot, (C6_get_until_drop [] (Value.int 7) [StoreOp.put (Value.int 8)]
    []).1 hnot⟩

/-- C7: handle ids come from the monotonically increasing counter rendered
as `"h" + counter`: any two `put` results, however separated (including by
drops), have strictly increasing counter values and distinct ids. -/
theorem C7_put_ids_monotone (ops0 : List StoreOp) (v1 : Value)
    (ops1 : List StoreOp) (v2 : Value) :
    ∃ n1 n2 : Nat,
      ((runOps initialStore ops0).put v1).1 = handleId n1 ∧
      ((runOps ((runOps initialStore ops0).put v1).2 ops1).put v2).1 =
        handleId n2 ∧
      n1 < n2 ∧
      ((runOps initialStore ops0).put v1).1 ≠
        ((runOps ((runOps initialStore ops0).put v1).2 ops1).put v2).1 := by
  have hc : ((runOps initialStore ops0).put v1).2.counter ≤
      (runOps ((runOps initialStore ops0).put v1).2 ops1).counter :=
    counter_runOps _ _
  have hc2 : (runOps initialStore ops0).counter + 1 ≤
      (runOps ((runOps initialStore ops0).put v1).2 ops1).counter := hc
  refine ⟨(runOps initialStore ops0).counter + 1,
    (runOps ((runOps initialStore ops0).put v1).2 ops1).counter + 1,
    rfl, rfl, by omega, ?_⟩
  intro he
  have h2 := handleId_inj he
  omega

/-- C7 witness: two puts separated by a drop of the first id still get
distinct, increasing identifiers. -/
theorem C7_put_ids_monotone_witness :
    ∃ n1 n2 : Nat,
      ((runOps initialStore []).put (Value.int 1)).1 = handleId n1 ∧
      ((runOps ((runOps initialStore []).put (Value.int 1)).2
        [StoreOp.drop "h1"]).put (Value.int 2)).1 = handleId n2 ∧
      n1 < n2 ∧
      ((runOps initialStore []).put (Value.int 1)).1 ≠
        ((runOps ((runOps initialStore []).put (Value.int 1)).2
          [StoreOp.drop "h1"]).put (Value.int 2)).1 :=
  C7_put_ids_monotone [] (Value.int 1) [StoreOp.drop "h1"] (Value.int 2)

/-- C8 counterexample: `_drop_handle_sync` does *not* succeed for every
handle-id string — the empty string is rejected with a `ValueError`. -/
theorem C8_drop_counterexample :
    dropHandleSync initialStore "" = .error "handle_id cannot be empty." := by
  rfl

/-- C8 (amended): for every handle id that is non-empty after stripping,
`_drop_handle_sync` succeeds and reports `dropped=true`, with `existed`
reflecting presence; dropping the same id again still succeeds with
`dropped=true` and `existed=false`. -/
theorem C8_drop_idempotent (s : HandleStore) (handle_id : String)
    (hne : pyStrip handle_id ≠ "")
    (hnodup : (s.items.map Prod.fst).Nodup) :
    ∃ r s2, dropHandleSync s handle_id = .ok (r, s2) ∧
      r.dropped = true ∧
      r.existed = (lookupItem s.items (pyStrip handle_id)).isSome ∧
      ∃ r2 s3, dropHandleSync s2 handle_id = .ok (r2, s3) ∧
        r2.dropped = true ∧ r2.existed = false := by
  refine ⟨⟨pyStrip handle_id, true,
      (lookupItem s.items (pyStrip handle_id)).isSome,
      (⟨removeItem s.items (pyStrip handle_id), s.counter⟩ :
        HandleStore).count⟩,
    ⟨removeItem s.items (pyStrip handle_id), s.counter⟩, ?_, rfl, rfl, ?_⟩
  · simp only [dropHandleSync, HandleStore.drop, if_neg hne]
  · refine ⟨⟨pyStrip handle_id, true,
        (lookupItem (removeItem s.items (pyStrip handle_id))
          (pyStrip handle_id)).isSome,
        (⟨removeItem (removeItem s.items (pyStrip handle_id))
            (pyStrip handle_id), s.counter⟩ : HandleStore).count⟩,
      ⟨removeItem (removeItem s.items (pyStrip handle_id))
          (pyStrip handle_id), s.counter⟩, ?_, rfl, ?_⟩
    · simp only [dropHandleSync, HandleStore.drop, if_neg hne]
    · show (lookupItem (removeItem s.items (pyStrip handle_id))
        (pyStrip handle_id)).isSome = false
      rw [lookupItem_removeItem_self _ _ hnodup]
      rfl

/-- C8 witness: dropping an existing handle twice. -/
theorem C8_drop_idempotent_witness :
    ∃ r s2, dropHandleSync (initialStore.put (Value.int 5)).2 "h1" =
        .ok (r, s2) ∧
      r.dropped = true ∧
      r.existed = (lookupItem (initialStore.put (Value.int 5)).2.items
        (pyStrip "h1")).isSome ∧
      ∃ r2 s3, dropHandleSync s2 "h1" = .ok (r2, s3) ∧
        r2.dropped = true ∧ r2.existed = false :=
  C8_drop_idempotent (initialStore.put (Value.int 5)).2 "h1" (by decide)
    (by decide)

/-! ## Claim theorems: codec and engine (C1, C3, C4, C5, C9, C10) -/

theorem serializeSeq_take (s : HandleStore) (mi : Nat) (ch : Bool)
    (fuel : Nat) (xs : List Value) :
    serializeSeq s mi ch fuel (xs.take fuel) = serializeSeq s mi ch fuel xs := by
  induction fuel generalizing s xs with
  | zero => cases xs <;> rfl
  | succ fuel ih =>
      cases xs with
      | nil => rfl
      | cons v rest =>
          simp only [List.take_succ_cons, serializeSeq]
          rw [ih]

/-- C4: a sequence longer than the cap encodes as a `truncated_list`
wrapper with `total` the original length and `returned` the cap, holding
the first `max_items` elements, each recursively encoded against the same
per-level cap; a sequence within the cap encodes as a plain array. -/
theorem C4_truncation (s : HandleStore) (ch : Bool) (xs : List Value)
    (mi : Nat) (h1 : 1 ≤ mi) (h2 : mi ≤ 10000) :
    (mi < xs.length →
      serializeValue s mi ch (.pyList xs) =
        (J.obj [("type", J.str "truncated_list"),
          ("items", J.arr (serializeSeq s mi ch mi (xs.take mi)).1),
          ("total", J.num xs.length), ("returned", J.num mi)],
          (serializeSeq s mi ch mi (xs.take mi)).2)) ∧
    (xs.length ≤ mi →
      serializeValue s mi ch (.pyList xs) =
        (J.arr (serializeSeq s mi ch mi xs).1,
          (serializeSeq s mi ch mi xs).2)) := by
  constructor
  · intro hgt
    rw [serializeSeq_take]
    rcases hseq : serializeSeq s mi ch mi xs with ⟨out, s2⟩
    simp only [serializeValue, hseq, gt_iff_lt, if_pos hgt]
  · intro hle
    rcases hseq : serializeSeq s mi ch mi xs with ⟨out, s2⟩
    simp only [serializeValue, hseq, gt_iff_lt,
      if_neg (by omega : ¬ mi < xs.length)]

/-- C4 witness: a 5-element list with cap 3. -/
theorem C4_truncation_witness :
    serializeValue initialStore 3 true
      (.pyList [Value.int 1, Value.int 2, Value.int 3, Value.int 4,
        Value.int 5]) =
      (J.obj [("type", J.str "truncated_list"),
        ("items", J.arr (serializeSeq initialStore 3 true 3
          ([Value.int 1, Value.int 2, Value.int 3, Value.int 4,
            Value.int 5].take 3)).1),
        ("total", J.num 5), ("returned", J.num 3)],
        (serializeSeq initialStore 3 true 3
          ([Value.int 1, Value.int 2, Value.int 3, Value.int 4,
            Value.int 5].take 3)).2) :=
  (C4_truncation initialStore true
    [Value.int 1, Value.int 2, Value.int 3, Value.int 4, Value.int 5] 3
    (by decide) (by decide)).1 (by decide)

/-- C5: a byte string encodes to `{type: bytes, size, base64}`; decoding
the single-key `__bytes_base64__` object built from that base64 text gives
back exactly the original bytes; invalid base64 raises the argument-shape
error. -/
theorem C5_bytes_roundtrip (s s2 : HandleStore) (mi : Nat) (ch : Bool)
    (ctx : Ctx) (bs : List Nat) (hbs : bytesOk bs) :
    serializeValue s mi ch (.bytes bs) =
      (J.obj [("type", J.str "bytes"), ("size", J.num bs.length),
        ("base64", J.str (b64encode bs))], s) ∧
    decodeSpecialArgument ctx s2 [("__bytes_base64__", J.str (b64encode bs))] =
      .ok (.bytes bs) ∧
    (∀ t, b64decode t = Option.none →
      decodeSpecialArgument ctx s2 [("__bytes_base64__", J.str t)] =
        .error "Invalid __bytes_base64__ payload.") := by
  refine ⟨by simp [serializeValue], ?_, ?_⟩
  · simp [decodeSpecialArgument, b64_roundtrip bs hbs]
  · intro t ht
    simp [decodeSpecialArgument, ht]

/-- C5 witness: a concrete byte string including a zero byte and 255. -/
theorem C5_bytes_roundtrip_witness :
    serializeValue initialStore 200 true (.bytes [0, 255, 10]) =
      (J.obj [("type", J.str "bytes"),
        ("size", J.num ([0, 255, 10] : List Nat).length),
        ("base64", J.str (b64encode [0, 255, 10]))], initialStore) ∧
    decodeSpecialArgument ⟨Option.none, 200⟩ initialStore
      [("__bytes_base64__", J.str (b64encode [0, 255, 10]))] =
      .ok (.bytes [0, 255, 10]) ∧
    (∀ t, b64decode t = Option.none →
      decodeSpecialArgument ⟨Option.none, 200⟩ initialStore
        [("__bytes_base64__", J.str t)] =
        .error "Invalid __bytes_base64__ payload.") :=
  C5_bytes_roundtrip initialStore initialStore 200 true ⟨Option.none, 200⟩
    [0, 255, 10] (by simp [bytesOk])

/-- C3: when a JSON object does not consist of exactly one key, decoding
falls through to the generic mapping decoder (which recursively decodes
each value), even if one of the keys is a special discriminant — no error
is raised for the extra keys. -/
theorem C3_falls_through (ctx : Ctx) (s : HandleStore)
    (fields : List (String × J)) (h2 : 2 ≤ fields.length) :
    decodeSpecialArgument ctx s fields = decodeFields ctx s fields := by
  rcases fields with _ | ⟨a, _ | ⟨b, rest⟩⟩
  · simp at h2
  · simp at h2
  · rw [decodeSpecialArgument.eq_def]

/-- C3 witness: `__handle_id__` next to another key decodes generically. -/
theorem C3_falls_through_witness :
    decodeSpecialArgument ⟨Option.none, 200⟩ initialStore
      [("__handle_id__", J.str "h1"), ("x", J.num 1)] =
      decodeFields ⟨Option.none, 200⟩ initialStore
        [("__handle_id__", J.str "h1"), ("x", J.num 1)] :=
  C3_falls_through ⟨Option.none, 200⟩ initialStore
    [("__handle_id__", J.str "h1"), ("x", J.num 1)] (by decide)

/-- C1 counterexample: a `__path__` object *missing* the `path` sub-field
decodes successfully (the code defaults it to the repository root), so the
claim that decoding fails whenever `path` is missing is false. -/
theorem C1_missing_path_counterexample :
    decodeSpecialArgument ⟨some "https://h/artifactory", 200⟩ initialStore
      [("__path__", J.obj [("repository", J.str "libs")])] =
      .ok (DVal.pathObj "https://h/artifactory/libs") := by
  rw [decodeSpecialArgument.eq_def]
  rfl

/-- C1 (amended): decoding `{"__path__": P}` fails when `P.repository` is
missing or not a string, and when `P.base_url` is present as a non-blank
string that fails base-URL validation; a missing `path` does not fail (it
defaults to the empty path). -/
theorem C1_path_shape_errors (ctx : Ctx) (s : HandleStore)
    (pf : List (String × J)) :
    ((∀ r, lookupField pf "repository" ≠ some (J.str r)) →
      decodeSpecialArgument ctx s [("__path__", J.obj pf)] =
        .error "__path__.repository must be a string.") ∧
    (∀ repo u e, lookupField pf "repository" = some (J.str repo) →
      (lookupField pf "path" = Option.none ∨
        ∃ t, lookupField pf "path" = some (J.str t)) →
      lookupField pf "base_url" = some (J.str u) →
      pyStrip u ≠ "" →
      validateBaseUrl u = .error e →
      decodeSpecialArgument ctx s [("__path__", J.obj pf)] = .error e) := by
  constructor
  · intro hrep
    rw [decodeSpecialArgument.eq_def]
    show decodePathRef ctx pf = .error "__path__.repository must be a string."
    rcases hl : lookupField pf "repository" with _ | jv
    · simp [decodePathRef, hl]
    · cases jv
      case str r => exact absurd hl (hrep r)
      all_goals simp [decodePathRef, hl]
  · intro repo u e hrep hpath hbase hu hval
    rw [decodeSpecialArgument.eq_def]
    show decodePathRef ctx pf = .error e
    have hu0 : u ≠ "" := by
      intro he
      rw [he] at hu
      exact hu rfl
    rcases hpath with hp | ⟨t, hp⟩ <;>
      simp [decodePathRef, hrep, hp, hbase, resolveBaseUrl, hu0, hu, hval,
        Bind.bind, Except.bind]

/-- C1 witness: `repository` missing entirely, and an invalid `base_url`. -/
theorem C1_path_shape_errors_witness :
    decodeSpecialArgument ⟨Option.none, 200⟩ initialStore
      [("__path__", J.obj [("path", J.str "a")])] =
      .error "__path__.repository must be a string." ∧
    decodeSpecialArgument ⟨Option.none, 200⟩ initialStore
      [("__path__", J.obj [("repository", J.str "libs"),
        ("base_url", J.str "ftp://x")])] =
      .error ("Invalid base url ftp://x. Expected an absolute HTTP/HTTPS URL.") :=
  ⟨(C1_path_shape_errors ⟨Option.none, 200⟩ initialStore
      [("path", J.str "a")]).1 (fun r h => Option.noConfusion h),
    (C1_path_shape_errors ⟨Option.none, 200⟩ initialStore
      [("repository", J.str "libs"), ("base_url", J.str "ftp://x")]).2
      "libs" "ftp://x"
      ("Invalid base url ftp://x. Expected an absolute HTTP/HTTPS URL.")
      rfl (Or.inl rfl) rfl (by decide) rfl⟩

/-- C9: any method name that starts with an underscore after stripping is
rejected with the private/special error, for every target (whether or not
it exposes such an attribute) and before attribute lookup, callability
checking and argument decoding. -/
theorem C9_private_gate (ctx : Ctx)
    (cm : String → List String → List String) (s : HandleStore)
    (target : Target) (label method : String) (pos : List J)
    (kw : List (String × J)) (maxItems : Option Int)
    (hmi : maxItems = Option.none ∨
      ∃ m, maxItems = some m ∧ 1 ≤ m ∧ m ≤ 10000)
    (hpriv : startsWithChar (pyStrip method) '_') :
    invokeMethodSync ctx cm s target label method pos kw maxItems =
      .error (.privateMethod (pyStrip method)) := by
  have hne : pyStrip method ≠ "" := by
    intro h0
    rw [h0] at hpriv
    exact absurd hpriv (by decide)
  have hnorm : ∃ m0, normalizeMaxItems ctx maxItems = .ok m0 := by
    rcases hmi with h | ⟨m, hm, hm1, hm2⟩
    · exact ⟨ctx.defaultMaxItems, by rw [h]; rfl⟩
    · refine ⟨m, ?_⟩
      rw [hm]
      simp only [normalizeMaxItems]
      rw [if_neg (by omega)]
  obtain ⟨m0, hm0⟩ := hnorm
  simp only [invokeMethodSync, hm0]
  rw [if_neg hne, if_pos hpriv]

/-- C9 witness: a target that *does* expose the attribute `_x`, invoked
with surrounding whitespace in the method name. -/
theorem C9_private_gate_witness :
    invokeMethodSync ⟨Option.none, 200⟩ (fun _ _ => []) initialStore
      ⟨[("_x", ⟨true, fun _ _ => .ret .none⟩)], "T"⟩ "t" " _x" [] []
      Option.none = .error (.privateMethod "_x") := by
  have h := C9_private_gate ⟨Option.none, 200⟩ (fun _ _ => []) initialStore
    ⟨[("_x", ⟨true, fun _ _ => .ret .none⟩)], "T"⟩ "t" " _x" [] []
    Option.none (Or.inl rfl) (by decide)
  have hps : pyStrip " _x" = "_x" := by decide
  rw [hps] at h
  exact h

/-- C10: base-URL validation is a rewriting validator — the input is
stripped of whitespace and trailing slashes; it is rejected exactly when
the scheme is not http/https or the host is empty; accepted URLs with an
empty or `/` path come back with `/artifactory` substituted as the path,
and all other accepted URLs come back as the stripped candidate. -/
theorem C10_base_url_rewrites (value : String) :
    (((urlparse (pyRstripSlash (pyStrip value))).scheme ≠ "http" ∧
        (urlparse (pyRstripSlash (pyStrip value))).scheme ≠ "https") ∨
      (urlparse (pyRstripSlash (pyStrip value))).netloc = "" →
      validateBaseUrl value =
        .error ("Invalid base url " ++ value ++
          ". Expected an absolute HTTP/HTTPS URL.")) ∧
    (((urlparse (pyRstripSlash (pyStrip value))).scheme = "http" ∨
        (urlparse (pyRstripSlash (pyStrip value))).scheme = "https") →
      (urlparse (pyRstripSlash (pyStrip value))).netloc ≠ "" →
      (((urlparse (pyRstripSlash (pyStrip value))).path = "" ∨
          (urlparse (pyRstripSlash (pyStrip value))).path = "/") →
        validateBaseUrl value =
          .ok (urlunparse { urlparse (pyRstripSlash (pyStrip value)) with
            path := "/artifactory" })) ∧
      ((urlparse (pyRstripSlash (pyStrip value))).path ≠ "" →
        (urlparse (pyRstripSlash (pyStrip value))).path ≠ "/" →
        validateBaseUrl value = .ok (pyRstripSlash (pyStrip value)))) := by
  constructor
  · intro hrej
    simp only [validateBaseUrl]
    rw [if_pos hrej]
  · intro hscheme hnet
    have hcond : ¬ ((((urlparse (pyRstripSlash (pyStrip value))).scheme ≠
          "http" ∧
        (urlparse (pyRstripSlash (pyStrip value))).scheme ≠ "https") ∨
      (urlparse (pyRstripSlash (pyStrip value))).netloc = "")) := by
      intro h
      rcases h with ⟨ha, hb⟩ | hc
      · rcases hscheme with h1 | h1
        · exact ha h1
        · exact hb h1
      · exact hnet hc
    constructor
    · intro hpath
      simp only [validateBaseUrl]
      rw [if_neg hcond, if_pos hpath]
    · intro hp1 hp2
      simp only [validateBaseUrl]
      rw [if_neg hcond, if_neg (by tauto)]

/-- C10 witness: a host-only URL with a trailing slash gains the default
`/artifactory` path. -/
theorem C10_base_url_rewrites_witness :
    validateBaseUrl "https://host/" = .ok "https://host/artifactory" := by
  have h := ((C10_base_url_rewrites "https://host/").2 (by decide)
    (by decide)).1 (by decide)
  have hu : urlunparse { urlparse (pyRstripSlash (pyStrip "https://host/"))
      with path := "/artifactory" } = "https://host/artifactory" := by decide
  rw [hu] at h
  exact h

end ArtifactoryMcp
